import Mathlib

/-!
Verification development for `Version_2_Name_Entity_Recognition/multi_column.py`.

The Python module infers the column layout of a document page: it filters
horizontal text blocks, extends them to the right, merges them into column
rectangles and finally deduplicates and reorders the result.  The definitions
below are a shallow embedding of that module: rectangles follow PyMuPDF's
`IRect` semantics (integer coordinates, `is_empty` iff width or height is
non-positive, intersection by max/min, union by min/max with empty operands
handled as in `Rect.include_rect`), and the page/block/line/span input mirrors
the dictionary structure produced by `page.get_text("dict")`.  Dictionary keys
that the Python code reads without a surrounding `try` are modelled as
`Option` fields, and the computation runs in `Except PyErr` so that the
uncaught `KeyError`/`IndexError` behaviour of the source is visible.
-/

namespace MultiColumn

/-- Python exceptions that can escape `column_boxes`. -/
inductive PyErr where
  | keyError : String → PyErr
  | indexError : PyErr
deriving DecidableEq, Repr

deriving instance DecidableEq for Except

/-- Axis-aligned rectangle with integer coordinates, as `fitz.IRect`. -/
structure Rect where
  x0 : Int
  y0 : Int
  x1 : Int
  y1 : Int
deriving DecidableEq, Repr

/-- Emptiness test `fitz.IRect.is_empty`: a rectangle is empty iff its width or height is
not positive. -/
def Rect.isEmpty (r : Rect) : Bool :=
  decide (r.x1 ≤ r.x0) || decide (r.y1 ≤ r.y0)

/-- Intersection `a & b`.  For non-empty operands fitz computes the max/min
coordinates; when an operand is empty fitz copies an empty rectangle instead,
but the max/min form below is empty in exactly the same cases, and the source
only ever uses `(a & b).is_empty`. -/
def Rect.inter (a b : Rect) : Rect :=
  ⟨max a.x0 b.x0, max a.y0 b.y0, min a.x1 b.x1, min a.y1 b.y1⟩

/-- Union `a | b` (`Rect.include_rect`): the argument is ignored when empty,
replaces the receiver when the receiver is empty, else min/max hull.
(The infinite-rectangle case of fitz cannot arise here.) -/
def Rect.union (a b : Rect) : Rect :=
  if b.isEmpty then a
  else if a.isEmpty then b
  else ⟨min a.x0 b.x0, min a.y0 b.y0, max a.x1 b.x1, max a.y1 b.y1⟩

/-- Containment test `b in a` (`Rect.__contains__`):
`a.x0 <= b.x0 <= b.x1 <= a.x1 and a.y0 <= b.y0 <= b.y1 <= a.y1`. -/
def Rect.containsR (a b : Rect) : Bool :=
  decide (a.x0 ≤ b.x0) && decide (b.x0 ≤ b.x1) && decide (b.x1 ≤ a.x1) &&
    decide (a.y0 ≤ b.y0) && decide (b.y0 ≤ b.y1) && decide (b.y1 ≤ a.y1)

/-- Assignment `temp.x1 = width`: in-place right-edge assignment on a fresh copy. -/
def setX1 (r : Rect) (w : Int) : Rect := { r with x1 := w }

/-- Constant `fitz.EMPTY_IRECT()`: the canonical empty integer rectangle. -/
def EMPTY_IRECT : Rect := ⟨2147483520, 2147483520, -2147483648, -2147483648⟩

/-- One span of a text line: carries its text run. -/
structure Span where
  text : String
deriving DecidableEq, Repr

/-- One line of a text block.  `spans` is `Option` because the Python code
reads `line["spans"]` outside any `try`, so a missing key raises `KeyError`. -/
structure Line where
  dir : Int × Int
  bbox : Rect
  spans : Option (List Span)
deriving DecidableEq, Repr

/-- One raw text block from `page.get_text("dict")["blocks"]`.  `lines` is
`Option` because `b["lines"]` raises `KeyError` when the key is missing (the
`try` around it only catches `IndexError`). -/
structure Block where
  bbox : Rect
  lines : Option (List Line)
deriving DecidableEq, Repr

/-- The extraction collaborator's view of a page: the page rectangle, the
image rectangles gathered from `get_images`/`get_image_rects`, and the text
blocks returned by `get_text` (already clipped by the collaborator). -/
structure Page where
  rect : Rect
  imgRects : List Rect
  blocks : List Block
deriving DecidableEq, Repr

/-- Predicate `in_bbox(bb, bboxes)`: true iff some rectangle of the list contains `bb`. -/
def in_bbox (bb : Rect) (bboxes : List Rect) : Bool :=
  bboxes.any fun bbox => Rect.containsR bbox bb

/-- Predicate `intersects_bboxes(bb, bboxes)`: true iff `bb` has non-empty intersection
with some rectangle of the list. -/
def intersects_bboxes (bb : Rect) (bboxes : List Rect) : Bool :=
  bboxes.any fun bbox => !(Rect.inter bb bbox).isEmpty

/-- Compatibility test `can_extend(temp, bb, bboxlist)`.  Here `vert` is the enclosing `vert_bboxes`
the Python closure captures.  The working lists may contain `None` entries
(consumed rectangles), hence `Option Rect`.  Each entry must satisfy
`not intersects_bboxes(temp, vert_bboxes) and (b is None or b == bb or
(temp & b).is_empty)`; the first failure returns `False`. -/
def can_extend (vert : List Rect) (temp bb : Rect) (bboxlist : List (Option Rect)) : Bool :=
  bboxlist.all fun b =>
    !intersects_bboxes temp vert &&
      (match b with
       | none => true
       | some r => decide (r = bb) || (Rect.inter temp r).isEmpty)

/-- Clip rectangle: the page rectangle with footer and header margins
trimmed.  (It only parameterises the external `get_text` call, whose result
is already the `blocks` field of `Page`.) -/
def clipRect (pageRect : Rect) (footer_margin header_margin : Int) : Rect :=
  { pageRect with y0 := pageRect.y0 + header_margin, y1 := pageRect.y1 - footer_margin }

/-- Python `str.strip()`: remove leading and trailing whitespace. -/
def pyStrip (s : String) : String :=
  ⟨((s.data.dropWhile Char.isWhitespace).reverse.dropWhile Char.isWhitespace).reverse⟩

/-- Concatenation of the stripped span texts of a line:
`"".join([s["text"].strip() for s in line["spans"]])`, with the `KeyError`
raised by a missing `"spans"` key. -/
def lineText (l : Line) : Except PyErr String :=
  match l.spans with
  | none => .error (.keyError "spans")
  | some spans => .ok (String.join (spans.map fun s => pyStrip s.text))

/-- Total variant of `lineText` used to state specifications (a line without
a `"spans"` key never reaches a length test in the source). -/
def lineTextD (l : Line) : String :=
  match l.spans with
  | none => ""
  | some spans => String.join (spans.map fun s => pyStrip s.text)

/-- The `srect` accumulation of a horizontal block: starting from
`fitz.EMPTY_IRECT()`, union in each line's bbox whose stripped text is longer
than one character. -/
def buildSrect (srect : Rect) : List Line → Except PyErr Rect
  | [] => .ok srect
  | l :: rest =>
    match lineText l with
    | .error e => .error e
    | .ok text =>
      if 1 < text.length then buildSrect (Rect.union srect l.bbox) rest
      else buildSrect srect rest

/-- Phase 1, `# 1. Identify Content`: the block loop of `column_boxes`.
Accumulates the horizontal candidate rectangles `bxs` and the vertical-text
obstacle rectangles `verts` in order.  A block contained in an image is
skipped when `no_image_text`; a block with no `"lines"` key raises
`KeyError`; an empty `lines` list raises `IndexError` at `b["lines"][0]`,
which the source catches and turns into `continue`; a first line whose
direction is not `(1, 0)` classifies the block as vertical. -/
def identifyContent (no_image_text : Bool) (img_bboxes : List Rect) :
    List Block → List Rect → List Rect → Except PyErr (List Rect × List Rect)
  | [], bxs, verts => .ok (bxs, verts)
  | b :: rest, bxs, verts =>
    if no_image_text && in_bbox b.bbox img_bboxes then
      identifyContent no_image_text img_bboxes rest bxs verts
    else
      match b.lines with
      | none => .error (.keyError "lines")
      | some [] => identifyContent no_image_text img_bboxes rest bxs verts
      | some (line0 :: ls) =>
        if line0.dir ≠ (1, 0) then
          identifyContent no_image_text img_bboxes rest bxs (verts ++ [b.bbox])
        else
          match buildSrect EMPTY_IRECT (line0 :: ls) with
          | .error e => .error e
          | .ok srect =>
            if srect.isEmpty then identifyContent no_image_text img_bboxes rest bxs verts
            else identifyContent no_image_text img_bboxes rest (bxs ++ [srect]) verts

/-- The sort key of `bboxes.sort(key=lambda k: (k.y0, k.x0))`:
lexicographic less-or-equal on `(y0, x0)`. -/
def leTopLeft (a b : Rect) : Prop :=
  a.y0 < b.y0 ∨ (a.y0 = b.y0 ∧ a.x0 ≤ b.x0)

instance : DecidableRel leTopLeft := fun a b =>
  inferInstanceAs (Decidable (_ ∨ _))

/-- Sorting `bboxes.sort(key=lambda k: (k.y0, k.x0))`: Python `list.sort` is a stable
sort, so any stable sort with the same key produces the same list; we use
insertion sort. -/
def sortByTopLeft (l : List Rect) : List Rect :=
  l.insertionSort leTopLeft

/-- One iteration of the `extend_right` loop at index `i`: skip rectangles
inside an image, widen to the page width, reject when the widened copy cuts
a vertical-text or image obstacle or fails `can_extend` against the whole
(partially updated) list, else replace in place. -/
def extendStep (width : Int) (vert img : List Rect) (bxs : List (Option Rect)) (i : Nat) :
    List (Option Rect) :=
  match bxs.get? i with
  | none => bxs
  | some none => bxs
  | some (some bb) =>
    if in_bbox bb img then bxs
    else
      let temp := setX1 bb width
      if intersects_bboxes temp (vert ++ img) then bxs
      else if can_extend vert temp bb bxs then bxs.set i (some temp)
      else bxs

/-- Phase `extend_right(bboxes, width, vert_bboxes, img_bboxes)`: iterate the loop
body over all indices, then `[b for b in bboxes if b is not None]`. -/
def extend_right (bxs : List (Option Rect)) (width : Int) (vert img : List Rect) : List Rect :=
  ((List.range bxs.length).foldl (extendStep width vert img) bxs).filterMap id

/-- The inner scan of the merge phase: find the first `nblocks[j]` whose
horizontal span is not disjoint from `bb` and for which the trial union
passes `can_extend` against the whole `nblocks` list.  `fuel` counts the
remaining indices (`nblocks.length` at the initial call suffices).
The `bb is None` disjunct of the source is vacuous here because the loop
variable `bb` of the outer loop is never `None` when read. -/
def findMergeAux (vert : List Rect) (bb : Rect) (nblocks : List Rect) :
    Nat → Nat → Option (Nat × Rect)
  | 0, _ => none
  | fuel + 1, j =>
    match nblocks.get? j with
    | none => none
    | some nbb =>
      if nbb.x1 < bb.x0 ∨ bb.x1 < nbb.x0 then findMergeAux vert bb nblocks fuel (j + 1)
      else
        let temp := Rect.union bb nbb
        if can_extend vert temp nbb (nblocks.map some) then some (j, temp)
        else findMergeAux vert bb nblocks fuel (j + 1)

/-- Entry point of the inner merge scan, starting at `j = 0`. -/
def findMerge (vert : List Rect) (bb : Rect) (nblocks : List Rect) : Option (Nat × Rect) :=
  findMergeAux vert bb nblocks nblocks.length 0

/-- Phase 2, `# 2. Join bboxes`: the outer merge loop.  At step `i` the
current rectangle `bb` is merged into the first compatible `nblocks[j]`
(or appended, with `temp = bb`), then the provisional `temp` is re-checked
with `can_extend(temp, bb, bboxes)` against the remaining input rectangles:
on failure `bb` is appended (possibly a second time), on success
`nblocks[j] = temp`.  Finally `bboxes[i] = None` marks `bb` consumed.
`fuel` counts the remaining indices.  The `some none` case is unreachable
from `column_boxes` (entries at indices `≥ i` are never `None`). -/
def mergeLoop (vert : List Rect) :
    Nat → List Rect → List (Option Rect) → Nat → List Rect
  | 0, nblocks, _, _ => nblocks
  | fuel + 1, nblocks, bboxes, i =>
    match bboxes.get? i with
    | none => nblocks
    | some none => mergeLoop vert fuel nblocks (bboxes.set i none) (i + 1)
    | some (some bb) =>
      let next :=
        match findMerge vert bb nblocks with
        | some (j, temp) =>
          if can_extend vert temp bb bboxes then nblocks.set j temp
          else nblocks ++ [bb]
        | none =>
          let nb1 := nblocks ++ [bb]
          if can_extend vert bb bb bboxes then nb1.set (nb1.length - 1) bb
          else nb1 ++ [bb]
      mergeLoop vert fuel next (bboxes.set i none) (i + 1)

/-- One step of the duplicate-removal loop of `clean_nblocks` at index `i`:
compare `nblocks[i]` with `nblocks[i - 1]` and delete index `i` when equal.
For `i = 0`, Python's `nblocks[i - 1]` is `nblocks[-1]`, the LAST element of
the current list. -/
def dedupStep (cur : List Rect) (i : Nat) : List Rect :=
  match cur.get? i, (if i = 0 then cur.getLast? else cur.get? (i - 1)) with
  | some bb1, some bb0 => if bb0 = bb1 then cur.eraseIdx i else cur
  | _, _ => cur

/-- The duplicate-removal loop `for i in range(start, -1, -1)`: apply
`dedupStep` at indices `i, i - 1, …, 0`. -/
def dedupGo : List Rect → Nat → List Rect
  | cur, 0 => dedupStep cur 0
  | cur, i + 1 => dedupGo (dedupStep cur (i + 1)) i

/-- The x-ascending relation used by `sorted(..., key=lambda b: b.x0)`. -/
def leX (a b : Rect) : Prop := a.x0 ≤ b.x0

instance : DecidableRel leX := fun a b =>
  inferInstanceAs (Decidable (_ ≤ _))

instance : IsTotal Rect leX := ⟨fun a b => Int.le_total a.x0 b.x0⟩

instance : IsTrans Rect leX := ⟨fun _ _ _ h1 h2 => le_trans h1 h2⟩

/-- Sorting `sorted(segment, key=lambda b: b.x0)`: a stable sort by `x0`. -/
def pysortX0 (l : List Rect) : List Rect := l.insertionSort leX

/-- Slice assignment `nblocks[i0 : i1 + 1] = sorted(nblocks[i0 : i1 + 1], ...)`
for `0 ≤ i0 < i1`. -/
def replaceSlice (cur : List Rect) (i0 i1 : Int) : List Rect :=
  let a := i0.toNat
  let b := i1.toNat
  cur.take a ++ pysortX0 ((cur.drop a).take (b - a + 1)) ++ cur.drop (b + 1)

/-- Part 2 of `clean_nblocks`: walk the list from index 1, keeping the
current segment `[i0, i1]` of consecutive rectangles whose bottom is within
10 of the segment anchor `y1` (the bottom of the segment's first element);
on a boundary, sort the finished segment by `x0` when it has more than one
element; after the loop sort the trailing segment likewise.  `fuel` counts
remaining iterations (`cur.length` at the initial call suffices). -/
def sortSegAux : Nat → List Rect → Int → Int → Int → Nat → List Rect
  | 0, cur, _, i0, i1, _ => if i1 > i0 then replaceSlice cur i0 i1 else cur
  | fuel + 1, cur, y1, i0, i1, i =>
    match cur.get? i with
    | none => if i1 > i0 then replaceSlice cur i0 i1 else cur
    | some b1 =>
      if 10 < (b1.y1 - y1).natAbs then
        let cur' := if i1 > i0 then replaceSlice cur i0 i1 else cur
        sortSegAux fuel cur' b1.y1 (i : Int) (i : Int) (i + 1)
      else
        sortSegAux fuel cur y1 i0 (i : Int) (i + 1)

/-- Cleanup `clean_nblocks(nblocks)`: return lists shorter than 2 unchanged, else
run the duplicate-removal loop and then the segment re-sort.  Reading
`nblocks[0].y1` raises `IndexError` when the duplicate removal emptied the
list. -/
def clean_nblocks (nblocks : List Rect) : Except PyErr (List Rect) :=
  if nblocks.length < 2 then .ok nblocks
  else
    let d := dedupGo nblocks (nblocks.length - 1)
    match d.head? with
    | none => .error .indexError
    | some b0 => .ok (sortSegAux d.length d b0.y1 0 (-1) 1)

/-- Top level `column_boxes(page, footer_margin, header_margin, no_image_text)`:
the full pipeline.  The margins only shape the clip rectangle handed to the
external text extraction, whose (already clipped) result is `page.blocks`. -/
def column_boxes (page : Page) (footer_margin header_margin : Int)
    (no_image_text : Bool) : Except PyErr (List Rect) :=
  let img_bboxes := page.imgRects
  let _clip := clipRect page.rect footer_margin header_margin
  match identifyContent no_image_text img_bboxes page.blocks [] [] with
  | .error e => .error e
  | .ok (bboxes0, vert_bboxes) =>
    let sorted := sortByTopLeft bboxes0
    let width := page.rect.x1 - page.rect.x0
    match extend_right (sorted.map some) width vert_bboxes img_bboxes with
    | [] => .ok []
    | b0 :: rest =>
      clean_nblocks (mergeLoop vert_bboxes rest.length [b0] (rest.map some) 0)

/-! ### Spec-side definitions and concrete instances -/

/-- The spec's description of a horizontal block's effective rectangle: the
union of exactly those line rectangles whose stripped text is longer than one
character, starting from the empty rectangle.  Stated from the spec's words,
to be compared with `buildSrect` from the source. -/
def specEffectiveRect (lines : List Line) : Rect :=
  (lines.filter fun l => decide (1 < (lineTextD l).length)).foldl
    (fun acc l => Rect.union acc l.bbox) EMPTY_IRECT

/-- Invariant of the `extend_right` loop: every entry of the working list is
either its original value or the original rectangle widened to `width`, and a
widened entry never intersects a vertical-text or image obstacle. -/
def ExtInv (width : Int) (vert img : List Rect) (orig acc : List (Option Rect)) : Prop :=
  acc.length = orig.length ∧
  ∀ k : Nat, acc.get? k = orig.get? k ∨
    ∃ bb : Rect, orig.get? k = some (some bb) ∧
      acc.get? k = some (some (setX1 bb width)) ∧
      intersects_bboxes (setX1 bb width) (vert ++ img) = false

/-- A page with a single horizontal text block that overlaps (but is not
contained in) the page's one image rectangle. -/
def pageC2 : Page :=
  ⟨⟨0, 0, 100, 300⟩, [⟨5, 65, 15, 75⟩],
   [⟨⟨0, 60, 10, 70⟩, some [⟨(1, 0), ⟨0, 60, 10, 70⟩, some [⟨"hello"⟩]⟩]⟩]⟩

/-- A page with three horizontal blocks: the bottoms of the first and third
are 5 apart, but the second block (bottom 11 below the first) starts a new
tolerance row, so the final re-sort never compares the first and third. -/
def pageC4 : Page :=
  ⟨⟨0, 0, 200, 300⟩, [],
   [⟨⟨50, 60, 80, 90⟩, some [⟨(1, 0), ⟨50, 60, 80, 90⟩, some [⟨"hello"⟩]⟩]⟩,
    ⟨⟨100, 61, 130, 101⟩, some [⟨(1, 0), ⟨100, 61, 130, 101⟩, some [⟨"hello"⟩]⟩]⟩,
    ⟨⟨0, 62, 30, 95⟩, some [⟨(1, 0), ⟨0, 62, 30, 95⟩, some [⟨"hello"⟩]⟩]⟩]⟩

/-- A page with one vertical-text block and two identical horizontal blocks
lying across it: merging appends the duplicate three times, duplicate removal
then deletes all three copies, and `clean_nblocks` crashes reading
`nblocks[0]`. -/
def pageC6 : Page :=
  ⟨⟨0, 0, 100, 300⟩, [],
   [⟨⟨0, 60, 10, 70⟩, some [⟨(0, 1), ⟨0, 60, 10, 70⟩, some [⟨"v"⟩]⟩]⟩,
    ⟨⟨0, 60, 8, 68⟩, some [⟨(1, 0), ⟨0, 60, 8, 68⟩, some [⟨"hello"⟩]⟩]⟩,
    ⟨⟨0, 60, 8, 68⟩, some [⟨(1, 0), ⟨0, 60, 8, 68⟩, some [⟨"hello"⟩]⟩]⟩]⟩

/-- A line whose single span carries a one-character text run. -/
def lineE5 : Line := ⟨(1, 0), ⟨0, 0, 5, 5⟩, some [⟨"x"⟩]⟩

/-- A horizontal block whose only line is `lineE5`. -/
def blockE5 : Block := ⟨⟨0, 0, 5, 5⟩, some [lineE5]⟩

/-! ### Theorems -/

/-- C9: a block whose lines collection is empty is skipped silently — it
contributes no candidate rectangle, is not recorded as a vertical obstacle and
raises no error; processing continues with the next block.  (The `IndexError`
raised by `b["lines"][0]` is caught and turned into `continue`.) -/
theorem c9_empty_lines_skipped (no_img : Bool) (imgs : List Rect)
    (b : Block) (rest : List Block) (bxs verts : List Rect)
    (h : b.lines = some []) :
    identifyContent no_img imgs (b :: rest) bxs verts =
      identifyContent no_img imgs rest bxs verts := by
  simp only [identifyContent, h]
  split <;> rfl

/-- C9 witness: a concrete block with an empty `lines` list is skipped and the
remaining (empty) block list yields the empty result. -/
theorem c9_witness :
    identifyContent true [] [⟨⟨0, 0, 5, 5⟩, some []⟩] [] [] = .ok ([], []) ∧
    (⟨⟨0, 0, 5, 5⟩, some []⟩ : Block).lines = some [] := by
  refine ⟨?_, rfl⟩
  rw [c9_empty_lines_skipped true [] ⟨⟨0, 0, 5, 5⟩, some []⟩ [] [] [] rfl]
  rfl

/-- C8: whenever filtering succeeds and no candidate rectangle survives
filtering and extension, `column_boxes` returns the empty list and raises no
error. -/
theorem c8_empty_result (page : Page) (fm hm : Int) (no_img : Bool)
    (bxs verts : List Rect)
    (h1 : identifyContent no_img page.imgRects page.blocks [] [] = .ok (bxs, verts))
    (h2 : extend_right ((sortByTopLeft bxs).map some)
        (page.rect.x1 - page.rect.x0) verts page.imgRects = []) :
    column_boxes page fm hm no_img = .ok [] := by
  unfold column_boxes
  dsimp only
  rw [h1]
  dsimp only
  rw [h2]

/-- C8 witness: an empty page (no blocks at all) yields the empty output. -/
theorem c8_witness :
    column_boxes ⟨⟨0, 0, 100, 300⟩, [], []⟩ 50 50 true = .ok [] :=
  c8_empty_result ⟨⟨0, 0, 100, 300⟩, [], []⟩ 50 50 true [] [] rfl rfl

/-- C1 counterexample: a candidate `temp` that intersects a vertical-text
obstacle is REJECTED by `can_extend` for every non-empty tracked list — even
one whose only entry is disjoint from the candidate — whereas the claim says
such a candidate is always accepted. -/
theorem c1_counterexample :
    intersects_bboxes ⟨0, 0, 10, 10⟩ [⟨0, 0, 10, 10⟩] = true ∧
    (Rect.inter ⟨0, 0, 10, 10⟩ ⟨20, 20, 30, 30⟩).isEmpty = true ∧
    can_extend [⟨0, 0, 10, 10⟩] ⟨0, 0, 10, 10⟩ ⟨0, 0, 2, 2⟩ [some ⟨20, 20, 30, 30⟩] = false := by
  decide

/-- C2 counterexample: on `pageC2` (with `no_image_text = true`) the single
output rectangle intersects the input image rectangle: filtering only skips
blocks CONTAINED in an image, not blocks merely overlapping one. -/
theorem c2_counterexample :
    column_boxes pageC2 50 50 true = .ok [⟨0, 60, 10, 70⟩] ∧
    (Rect.inter ⟨0, 60, 10, 70⟩ ⟨5, 65, 15, 75⟩).isEmpty = false ∧
    pageC2.imgRects = [⟨5, 65, 15, 75⟩] := by
  refine ⟨by decide, by decide, rfl⟩

/-- C4 counterexample: on `pageC4` the final output places the rectangle with
left edge 50 (bottom 90) before the rectangle with left edge 0 (bottom 95),
although their bottoms differ by only 5 ≤ 10 units: the two rectangles fall
into different anchor-tolerance rows, so the re-sort never orders them. -/
theorem c4_counterexample :
    column_boxes pageC4 50 50 true
        = .ok [⟨50, 60, 80, 90⟩, ⟨0, 62, 30, 95⟩, ⟨100, 61, 200, 101⟩] ∧
    ((95 : Int) - 90).natAbs ≤ 10 ∧ (0 : Int) < 50 := by
  refine ⟨by decide, by decide, by decide⟩

/-- C6: the duplicate-removal loop is NOT restricted to adjacent duplicates.
Its last iteration compares `nblocks[0]` with Python's `nblocks[-1]` — the
last element — so `[A, B, A]` loses its head even though no element equals
its immediate predecessor, and on `pageC6` the merged list `[H, H, H]` is
emptied entirely, after which `clean_nblocks` raises `IndexError` reading
`nblocks[0].y1`; `column_boxes` crashes on a well-formed page. -/
theorem c6_dedup_bug :
    dedupGo [⟨0, 0, 1, 1⟩, ⟨0, 0, 2, 2⟩, ⟨0, 0, 1, 1⟩] 2 = [⟨0, 0, 2, 2⟩, ⟨0, 0, 1, 1⟩] ∧
    (⟨0, 0, 1, 1⟩ : Rect) ≠ ⟨0, 0, 2, 2⟩ ∧
    column_boxes pageC6 50 50 true = .error .indexError := by
  refine ⟨by decide, by decide, by decide⟩

/-- Any success of the inner merge scan found its partner at an index holding
a rectangle whose horizontal span is not strictly disjoint from `bb`, and the
produced rectangle is the union of the two. -/
theorem findMergeAux_some (vert : List Rect) (bb : Rect) (nblocks : List Rect) :
    ∀ fuel j0 j temp, findMergeAux vert bb nblocks fuel j0 = some (j, temp) →
      ∃ nbb, nblocks.get? j = some nbb ∧ ¬(nbb.x1 < bb.x0) ∧ ¬(bb.x1 < nbb.x0) ∧
        temp = Rect.union bb nbb := by
  intro fuel
  induction fuel with
  | zero => intro j0 j temp h; simp [findMergeAux] at h
  | succ n ih =>
    intro j0 j temp h
    rw [findMergeAux] at h
    split at h
    · exact Option.noConfusion h
    · rename_i nbb hg
      split at h
      · exact ih _ _ _ h
      · rename_i hx
        dsimp only at h
        split at h
        · injection h with h'
          injection h' with h1 h2
          subst h1
          push_neg at hx
          exact ⟨nbb, hg, not_lt.mpr hx.1, not_lt.mpr hx.2, h2.symm⟩
        · exact ih _ _ _ h

/-- C3: when the merge scan of Column Merging joins `bb` with `nblocks[j]`,
the two rectangles' horizontal spans are not disjoint (neither `x1` is
strictly left of the other's `x0`), and the merged rectangle is exactly their
union — rectangles with disjoint horizontal spans are never merged. -/
theorem c3_no_merge_across_columns (vert : List Rect) (bb : Rect) (nblocks : List Rect)
    (j : Nat) (temp : Rect)
    (h : findMerge vert bb nblocks = some (j, temp)) :
    ∃ nbb, nblocks.get? j = some nbb ∧ ¬(nbb.x1 < bb.x0) ∧ ¬(bb.x1 < nbb.x0) ∧
      temp = Rect.union bb nbb :=
  findMergeAux_some vert bb nblocks nblocks.length 0 j temp h

/-- C3 witness: a concrete merge of two horizontally overlapping rectangles. -/
theorem c3_witness :
    findMerge [] ⟨0, 0, 10, 10⟩ [⟨5, 0, 15, 10⟩] = some (0, ⟨0, 0, 15, 10⟩) ∧
    ∃ nbb, ([⟨5, 0, 15, 10⟩] : List Rect).get? 0 = some nbb ∧
      ¬(nbb.x1 < (0 : Int)) ∧ ¬((10 : Int) < nbb.x0) ∧
      (⟨0, 0, 15, 10⟩ : Rect) = Rect.union ⟨0, 0, 10, 10⟩ nbb :=
  ⟨by decide, c3_no_merge_across_columns [] ⟨0, 0, 10, 10⟩ [⟨5, 0, 15, 10⟩] 0 _ (by decide)⟩

/-- When every line carries a `"spans"` key, the `srect` accumulation
succeeds and equals the fold of unions over exactly the lines whose stripped
text is longer than one character. -/
theorem buildSrect_eq_ok (lines : List Line) :
    ∀ r0 : Rect, (∀ l ∈ lines, l.spans ≠ none) →
      buildSrect r0 lines = .ok ((lines.filter fun l => decide (1 < (lineTextD l).length)).foldl
        (fun acc l => Rect.union acc l.bbox) r0) := by
  induction lines with
  | nil => intro r0 _; rfl
  | cons l rest ih =>
    intro r0 h
    have hl : l.spans ≠ none := h l (List.mem_cons_self l rest)
    have hrest : ∀ x ∈ rest, x.spans ≠ none := fun x hx => h x (List.mem_cons_of_mem l hx)
    cases hsp : l.spans with
    | none => exact absurd hsp hl
    | some ss =>
      rw [buildSrect, lineText, hsp]
      dsimp only
      have htxt : lineTextD l = String.join (ss.map fun s => pyStrip s.text) := by
        rw [lineTextD, hsp]
      by_cases hlen : 1 < (String.join (ss.map fun s => pyStrip s.text)).length
      · rw [if_pos hlen, ih _ hrest, List.filter_cons_of_pos (by rw [htxt]; exact decide_eq_true hlen)]
        rfl
      · rw [if_neg hlen, ih _ hrest, List.filter_cons_of_neg (by rw [htxt]; simpa using hlen)]

/-- When some line of the block lacks a `"spans"` key, the `srect`
accumulation raises `KeyError("spans")`. -/
theorem buildSrect_missing_spans (lines : List Line) :
    ∀ r0 : Rect, (∃ l ∈ lines, l.spans = none) →
      buildSrect r0 lines = .error (.keyError "spans") := by
  induction lines with
  | nil => intro r0 h; simp at h
  | cons l rest ih =>
    intro r0 h
    cases hsp : l.spans with
    | none => rw [buildSrect, lineText, hsp]
    | some ss =>
      obtain ⟨x, hx, hxsp⟩ := h
      have hmem : x ∈ rest := by
        cases List.mem_cons.mp hx with
        | inl heq => subst heq; rw [hsp] at hxsp; exact absurd hxsp (by simp)
        | inr hm => exact hm
      rw [buildSrect, lineText, hsp]
      dsimp only
      split <;> exact ih _ ⟨x, hmem, hxsp⟩

/-- C5: a horizontal text block's effective rectangle is the union of exactly
those line rectangles whose concatenated, whitespace-stripped text is longer
than one character (`specEffectiveRect`); when that rectangle is empty (in
particular when no line qualifies) the block contributes nothing to the
candidate list, otherwise it contributes exactly that rectangle. -/
theorem c5_effective_rect (no_img : Bool) (imgs : List Rect) (b : Block)
    (rest : List Block) (bxs verts : List Rect) (l0 : Line) (ls : List Line)
    (hlines : b.lines = some (l0 :: ls))
    (hdir : l0.dir = (1, 0))
    (himg : (no_img && in_bbox b.bbox imgs) = false)
    (hspans : ∀ l ∈ l0 :: ls, l.spans ≠ none) :
    identifyContent no_img imgs (b :: rest) bxs verts =
      if (specEffectiveRect (l0 :: ls)).isEmpty then
        identifyContent no_img imgs rest bxs verts
      else identifyContent no_img imgs rest (bxs ++ [specEffectiveRect (l0 :: ls)]) verts := by
  simp only [identifyContent, himg, Bool.false_eq_true, if_false, hlines]
  rw [buildSrect_eq_ok (l0 :: ls) EMPTY_IRECT hspans]
  simp only [hdir, ne_eq, not_true_eq_false, if_false, specEffectiveRect]

/-- C5 witness: a block whose only line carries a single-character text run
has an empty effective rectangle and contributes no output rectangle. -/
theorem c5_witness :
    identifyContent true [] [blockE5] [] [] = .ok ([], []) ∧
    (specEffectiveRect [lineE5]).isEmpty = true := by
  refine ⟨?_, by decide⟩
  rw [c5_effective_rect true [] blockE5 [] [] [] lineE5 [] rfl rfl (by decide) (by decide)]
  decide

/-- C10: a missing `"lines"` key in a block dictionary, or a missing
`"spans"` key in a line dictionary of a horizontal block, makes
`column_boxes` raise a `KeyError` instead of skipping the block (only the
`IndexError` of an empty lines list is caught). -/
theorem c10_missing_keys :
    (∀ (page : Page) (fm hm : Int) (b : Block),
      page.blocks = [b] → b.lines = none → in_bbox b.bbox page.imgRects = false →
      column_boxes page fm hm true = .error (.keyError "lines")) ∧
    (∀ (page : Page) (fm hm : Int) (b : Block) (l0 : Line) (ls : List Line),
      page.blocks = [b] → b.lines = some (l0 :: ls) → l0.dir = (1, 0) →
      in_bbox b.bbox page.imgRects = false → (∃ l ∈ l0 :: ls, l.spans = none) →
      column_boxes page fm hm true = .error (.keyError "spans")) := by
  constructor
  · intro page fm hm b hblocks hlines himg
    unfold column_boxes
    dsimp only
    rw [hblocks]
    simp only [identifyContent, himg, Bool.true_and, Bool.false_eq_true, if_false, hlines]
  · intro page fm hm b l0 ls hblocks hlines hdir himg hspan
    unfold column_boxes
    dsimp only
    rw [hblocks]
    simp only [identifyContent, himg, Bool.true_and, Bool.false_eq_true, if_false, hlines]
    rw [buildSrect_missing_spans (l0 :: ls) EMPTY_IRECT hspan]
    simp only [hdir, ne_eq, not_true_eq_false, if_false]

/-- C10 witness: concrete pages whose single block lacks `"lines"`,
respectively whose single line lacks `"spans"`. -/
theorem c10_witness :
    column_boxes ⟨⟨0, 0, 100, 300⟩, [], [⟨⟨0, 0, 5, 5⟩, none⟩]⟩ 50 50 true
        = .error (.keyError "lines") ∧
    column_boxes ⟨⟨0, 0, 100, 300⟩, [],
        [⟨⟨0, 0, 5, 5⟩, some [⟨(1, 0), ⟨0, 0, 5, 5⟩, none⟩]⟩]⟩ 50 50 true
        = .error (.keyError "spans") :=
  ⟨c10_missing_keys.1 _ 50 50 _ rfl rfl (by decide),
   c10_missing_keys.2 _ 50 50 _ ⟨(1, 0), ⟨0, 0, 5, 5⟩, none⟩ [] rfl rfl rfl (by decide)
     ⟨⟨(1, 0), ⟨0, 0, 5, 5⟩, none⟩, by simp, rfl⟩⟩

/-- C1 (amended): `can_extend` accepts a candidate `temp` iff the tracked
list is empty, or the candidate intersects NO vertical-text obstacle and
every tracked entry is a consumed `None`, the rectangle `bb` being replaced,
or disjoint from the candidate.  In particular a candidate that intersects a
vertical-text obstacle is REJECTED whenever the tracked list is non-empty —
the opposite of the claimed escape hatch. -/
theorem c1_amended (vert : List Rect) (temp bb : Rect) (l : List (Option Rect)) :
    can_extend vert temp bb l = true ↔
      (l = [] ∨ (intersects_bboxes temp vert = false ∧
        ∀ r : Rect, some r ∈ l → r = bb ∨ (Rect.inter temp r).isEmpty = true)) := by
  unfold can_extend
  rw [List.all_eq_true]
  constructor
  · intro h
    cases l with
    | nil => exact Or.inl rfl
    | cons a as =>
      refine Or.inr ⟨?_, ?_⟩
      · have := h a (List.mem_cons_self a as)
        have hni := (Bool.and_eq_true _ _).mp this |>.1
        simpa using hni
      · intro r hr
        have := h (some r) hr
        have h2 := (Bool.and_eq_true _ _).mp this |>.2
        dsimp only at h2
        rcases (Bool.or_eq_true _ _).mp h2 with h3 | h3
        · exact Or.inl (of_decide_eq_true h3)
        · exact Or.inr h3
  · intro h x hx
    cases h with
    | inl h => subst h; simp at hx
    | inr h =>
      refine (Bool.and_eq_true _ _).mpr ⟨by simp [h.1], ?_⟩
      cases x with
      | none => rfl
      | some r =>
        dsimp only
        rcases h.2 r hx with h3 | h3
        · simp [h3]
        · simp [h3]

/-- Widening is idempotent. -/
theorem setX1_setX1 (b : Rect) (w : Int) : setX1 (setX1 b w) w = setX1 b w := rfl

/-- One `extend_right` iteration preserves the loop invariant `ExtInv`. -/
theorem extendStep_preserves (width : Int) (vert img : List Rect)
    (orig acc : List (Option Rect)) (i : Nat)
    (h : ExtInv width vert img orig acc) :
    ExtInv width vert img orig (extendStep width vert img acc i) := by
  unfold extendStep
  split
  · exact h
  · exact h
  · rename_i bb hg
    split
    · exact h
    · dsimp only
      split
      · exact h
      · split
        · rename_i hni _
          obtain ⟨hlen, hk⟩ := h
          obtain ⟨hilt, -⟩ := List.get?_eq_some.mp hg
          have hni' : intersects_bboxes (setX1 bb width) (vert ++ img) = false := by
            simpa using hni
          refine ⟨by rw [List.length_set]; exact hlen, fun k => ?_⟩
          by_cases hki : k = i
          · subst hki
            have hset : (acc.set k (some (setX1 bb width))).get? k
                = some (some (setX1 bb width)) := by
              simp [List.get?_eq_getElem?, List.getElem?_set_self, hilt]
            rcases hk k with hcase | ⟨bb0, ho, ha, hint⟩
            · exact Or.inr ⟨bb, by rw [← hcase]; exact hg, hset, hni'⟩
            · have hbb : bb = setX1 bb0 width := by
                have := hg.symm.trans ha
                exact (Option.some.inj (Option.some.inj this))
              refine Or.inr ⟨bb0, ho, ?_, hint⟩
              rw [hset, hbb, setX1_setX1]
          · have huk : (acc.set i (some (setX1 bb width))).get? k = acc.get? k := by
              simp [List.get?_eq_getElem?, List.getElem?_set_ne (fun hh => hki hh.symm)]
            rw [huk]
            exact hk k
        · exact h

/-- Folding `extendStep` over any index list preserves the invariant. -/
theorem foldl_extendStep_inv (width : Int) (vert img : List Rect)
    (orig : List (Option Rect)) :
    ∀ (js : List Nat) (acc : List (Option Rect)), ExtInv width vert img orig acc →
      ExtInv width vert img orig (js.foldl (extendStep width vert img) acc) := by
  intro js
  induction js with
  | nil => exact fun acc h => h
  | cons j js ih => exact fun acc h => ih _ (extendStep_preserves width vert img orig acc j h)

/-- Applying `filterMap id` to a list without `none` entries keeps every position. -/
theorem filterMap_id_of_no_none :
    ∀ l : List (Option Rect), (∀ o ∈ l, o ≠ none) →
      (l.filterMap id).length = l.length ∧
      ∀ k, (l.filterMap id).get? k = (l.get? k).bind id := by
  intro l
  induction l with
  | nil => exact fun _ => ⟨rfl, fun k => by cases k <;> rfl⟩
  | cons o t ih =>
    intro h
    cases o with
    | none => exact absurd rfl (h none (List.mem_cons_self none t))
    | some a =>
      obtain ⟨h1, h2⟩ := ih (fun x hx => h x (List.mem_cons_of_mem _ hx))
      have hfc : (some a :: t).filterMap id = a :: t.filterMap id := by
        simp [List.filterMap_cons]
      refine ⟨by rw [hfc, List.length_cons, h1, List.length_cons], fun k => ?_⟩
      cases k with
      | zero => rw [hfc]; rfl
      | succ n => rw [hfc]; simpa using h2 n

/-- Full specification of `extend_right` on a list of live rectangles: the
output has the same length and, position by position, is either the original
rectangle or the original widened to `width`; a widened rectangle intersects
no vertical-text or image obstacle. -/
theorem extend_right_spec (bxs : List Rect) (width : Int) (vert img : List Rect) :
    (extend_right (bxs.map some) width vert img).length = bxs.length ∧
    ∀ k, (extend_right (bxs.map some) width vert img).get? k = bxs.get? k ∨
      ∃ bb, bxs.get? k = some bb ∧
        (extend_right (bxs.map some) width vert img).get? k = some (setX1 bb width) ∧
        intersects_bboxes (setX1 bb width) (vert ++ img) = false := by
  have hinv := foldl_extendStep_inv width vert img (bxs.map some)
      (List.range (bxs.map some).length) (bxs.map some) ⟨rfl, fun _ => Or.inl rfl⟩
  set final := (List.range (bxs.map some).length).foldl
      (extendStep width vert img) (bxs.map some) with hfinal
  have hns : ∀ o ∈ final, o ≠ none := by
    intro o ho hno
    subst hno
    obtain ⟨n, hn⟩ := List.mem_iff_get?.mp ho
    rcases hinv.2 n with hc | ⟨bb, _, ha, _⟩
    · rw [hc, List.get?_map] at hn
      cases hbx : bxs.get? n <;> rw [hbx] at hn <;> simp at hn
    · rw [ha] at hn
      simp at hn
  obtain ⟨hlen2, hget2⟩ := filterMap_id_of_no_none final hns
  have hout : extend_right (bxs.map some) width vert img = final.filterMap id := by
    rw [extend_right, ← hfinal]
  constructor
  · rw [hout, hlen2, hinv.1, List.length_map]
  · intro k
    rcases hinv.2 k with hc | ⟨bb, ho, ha, hint⟩
    · left
      rw [hout, hget2 k, hc, List.get?_map]
      cases bxs.get? k <;> rfl
    · right
      rw [List.get?_map] at ho
      cases hbx : bxs.get? k <;> rw [hbx] at ho
      · simp at ho
      · rename_i b
        have hb : b = bb := by simpa using ho
        subst hb
        exact ⟨b, rfl, by rw [hout, hget2 k, ha]; rfl, hint⟩

/-- C7: Right Extension only replaces rectangles by widened copies in place —
for every input list the output has the same length and order, each position
holding either the unchanged original rectangle or the original with only its
right edge `x1` set to the page width. -/
theorem c7_extension_frame (bxs : List Rect) (width : Int) (vert img : List Rect) :
    (extend_right (bxs.map some) width vert img).length = bxs.length ∧
    ∀ k, (extend_right (bxs.map some) width vert img).get? k = bxs.get? k ∨
      (extend_right (bxs.map some) width vert img).get? k
        = (bxs.get? k).map (fun b => setX1 b width) := by
  obtain ⟨hlen, hk⟩ := extend_right_spec bxs width vert img
  refine ⟨hlen, fun k => ?_⟩
  rcases hk k with hc | ⟨bb, ho, ha, -⟩
  · exact Or.inl hc
  · right
    rw [ha, ho]
    rfl

/-- C2 (amended): whenever Right Extension actually changes the rectangle at
some position, the new (widened) rectangle intersects no vertical-text or
image obstacle; unchanged output rectangles carry no such guarantee, and the
final output may well intersect an image (see the counterexample). -/
theorem c2_amended (bxs : List Rect) (width : Int) (vert img : List Rect)
    (k : Nat) (r : Rect)
    (h1 : (extend_right (bxs.map some) width vert img).get? k = some r)
    (h2 : bxs.get? k ≠ some r) :
    intersects_bboxes r (vert ++ img) = false := by
  rcases (extend_right_spec bxs width vert img).2 k with hc | ⟨bb, _, ha, hint⟩
  · exact absurd (hc ▸ h1).symm (fun hh => h2 hh.symm)
  · have : r = setX1 bb width := by
      have := h1.symm.trans ha
      exact Option.some.inj this
    rw [this]
    exact hint

/-- C2 amended witness: a rectangle widened from `x1 = 5` to the page width
10, with no obstacles present, intersects no obstacle. -/
theorem c2_amended_witness :
    (extend_right (([⟨0, 0, 5, 5⟩] : List Rect).map some) 10 [] []).get? 0
        = some ⟨0, 0, 10, 5⟩ ∧
    ([⟨0, 0, 5, 5⟩] : List Rect).get? 0 ≠ some ⟨0, 0, 10, 5⟩ ∧
    intersects_bboxes ⟨0, 0, 10, 5⟩ ([] ++ []) = false :=
  ⟨by decide, by decide, c2_amended [⟨0, 0, 5, 5⟩] 10 [] [] 0 ⟨0, 0, 10, 5⟩ (by decide) (by decide)⟩

/-- The slice assignment covering the whole list is just the stable sort of
the whole list. -/
theorem replaceSlice_whole (d : List Rect) (h1 : 1 ≤ d.length) :
    replaceSlice d 0 ((d.length : Int) - 1) = pysortX0 d := by
  unfold replaceSlice
  dsimp only
  have ht : ((d.length : Int) - 1).toNat = d.length - 1 := by omega
  have hb : d.length - 1 + 1 = d.length := by omega
  simp only [Int.toNat_zero, ht, List.take_zero, List.drop_zero, List.nil_append, Nat.sub_zero]
  rw [hb, List.take_length, List.drop_length, List.append_nil]

/-- When every rectangle's bottom lies within 10 units of the running anchor,
the segment walk of `clean_nblocks` never closes a segment early and ends by
stable-sorting the entire list by `x0`.  (`i` is the current index, with
`i0 = 0` and `i1 = i - 1` as maintained by the loop.) -/
theorem sortSegAux_single (y1 : Int) :
    ∀ (fuel : Nat) (d : List Rect) (i : Nat),
      1 ≤ i → i ≤ d.length → d.length + 1 ≤ fuel + i →
      (∀ b ∈ d, (b.y1 - y1).natAbs ≤ 10) →
      sortSegAux fuel d y1 0 ((i : Int) - 1) i = pysortX0 d := by
  intro fuel
  induction fuel with
  | zero => intro d i h1 h2 h3 _; omega
  | succ n ih =>
    intro d i h1 h2 h3 htol
    rw [sortSegAux]
    cases hg : d.get? i with
    | none =>
      have hlen : d.length ≤ i := List.get?_eq_none.mp hg
      have hieq : i = d.length := le_antisymm h2 hlen
      by_cases hd2 : 2 ≤ d.length
      · have hpos : ((i : Int) - 1) > 0 := by omega
        rw [if_pos hpos, hieq]
        exact replaceSlice_whole d (by omega)
      · have hd1 : d.length = 1 := by omega
        have hneg : ¬(((i : Int) - 1) > (0 : Int)) := by omega
        rw [if_neg hneg]
        obtain ⟨x, hx⟩ := List.length_eq_one.mp hd1
        subst hx
        rfl
    | some b1 =>
      have hmem : b1 ∈ d := List.get?_mem hg
      have hib : ¬(10 < (b1.y1 - y1).natAbs) := by
        have := htol b1 hmem
        omega
      dsimp only
      rw [if_neg hib]
      obtain ⟨hlt, -⟩ := List.get?_eq_some.mp hg
      have hcast : ((i : Int)) = ((i + 1 : Nat) : Int) - 1 := by push_cast; ring
      rw [hcast]
      exact ih d (i + 1) (by omega) (by omega) (by omega) htol

/-- C4 (amended): when all rectangles of the merged list form one tolerance
row — every bottom within 10 units of the FIRST rectangle's bottom, the
anchor the code uses — the reordering pass returns the list stable-sorted by
ascending left coordinate, so any rectangle with smaller `x0` precedes one
with larger `x0`.  Rectangles falling into different anchor rows carry no
cross-row ordering guarantee (see the counterexample). -/
theorem c4_amended (d : List Rect) (b0 : Rect)
    (hhead : d.head? = some b0)
    (htol : ∀ b ∈ d, (b.y1 - b0.y1).natAbs ≤ 10) :
    sortSegAux d.length d b0.y1 0 (-1) 1 = pysortX0 d ∧
      (sortSegAux d.length d b0.y1 0 (-1) 1).Sorted leX := by
  have hmain : sortSegAux d.length d b0.y1 0 (-1) 1 = pysortX0 d := by
    cases d with
    | nil => exact absurd hhead (by simp)
    | cons c ct =>
      have hc : c = b0 := by simpa using hhead
      subst hc
      rw [List.length_cons, sortSegAux]
      cases ct with
      | nil => rfl
      | cons c1 ct' =>
        have hg : (c :: c1 :: ct').get? 1 = some c1 := rfl
        rw [hg]
        have hib : ¬(10 < (c1.y1 - c.y1).natAbs) := by
          have := htol c1 (by simp)
          omega
        dsimp only
        rw [if_neg hib]
        have hcast : ((1 : Nat) : Int) = ((2 : Nat) : Int) - 1 := by norm_num
        rw [hcast]
        exact sortSegAux_single c.y1 (c1 :: ct').length (c :: c1 :: ct') 2
          (by omega) (by simp) (by simp) htol
  refine ⟨hmain, ?_⟩
  rw [hmain]
  exact List.sorted_insertionSort leX d

/-- C4 amended witness: a two-element single-row list is re-sorted by `x0`. -/
theorem c4_amended_witness :
    ([⟨5, 0, 6, 10⟩, ⟨0, 0, 1, 12⟩] : List Rect).head? = some ⟨5, 0, 6, 10⟩ ∧
    sortSegAux 2 [⟨5, 0, 6, 10⟩, ⟨0, 0, 1, 12⟩] 10 0 (-1) 1
        = pysortX0 [⟨5, 0, 6, 10⟩, ⟨0, 0, 1, 12⟩] ∧
    (sortSegAux 2 [⟨5, 0, 6, 10⟩, ⟨0, 0, 1, 12⟩] 10 0 (-1) 1).Sorted leX :=
  ⟨rfl,
   (c4_amended [⟨5, 0, 6, 10⟩, ⟨0, 0, 1, 12⟩] ⟨5, 0, 6, 10⟩ rfl (by decide)).1,
   (c4_amended [⟨5, 0, 6, 10⟩, ⟨0, 0, 1, 12⟩] ⟨5, 0, 6, 10⟩ rfl (by decide)).2⟩

end MultiColumn
